import Mathlib

/-!
Shallow embedding of the surface-code circuit generators:
`StabilizerCircuits` (error-syndrome-stabilizers.py) and
`SurfaceCodeEncoder` (logical-qubit-encoder.py).

Qubits are grid positions compared by coordinate equality (as the
underlying SDK's grid qubits are); coordinates are exact rationals, since
every coordinate in play is a half-integer and the source compares them
with exact equality.  A Python dict keyed by qubits whose values are the
key's own coordinates is represented by its key list in insertion order
(first occurrence wins, as in Python); circuits are the ordered list of
appended operations.  A lookup that can raise KeyError is modelled with
`Except Unit`.
-/

namespace SurfaceCode

/-- A grid qubit: an identity given by its (row, col) coordinates. -/
structure Qubit where
  row : ℚ
  col : ℚ
deriving DecidableEq, Repr

/-- One circuit operation: Hadamard, CNOT (control, target), reset, or a
keyed measurement over a qubit list. -/
inductive Op where
  | h : Qubit → Op
  | cnot : Qubit → Qubit → Op
  | reset : Qubit → Op
  | measure : List Qubit → String → Op
deriving DecidableEq, Repr

/-- A circuit is the ordered sequence of operations appended to it. -/
abbrev Circuit := List Op

/-- Python dict insertion for a key whose stored value is determined by the
key itself: a repeated key leaves the dict unchanged (its position and
value are already correct), a fresh key goes to the end. -/
def dictInsert (m : List Qubit) (q : Qubit) : List Qubit :=
  if q ∈ m then m else m ++ [q]

/-- The dict `{q: (q.row, q.col) for q in qs}`: key list in insertion
order, first occurrence kept. -/
def buildQubitMap (qs : List Qubit) : List Qubit :=
  qs.foldl dictInsert []

/-- State built by `StabilizerCircuits.__init__`. -/
structure StabilizerCircuits where
  data_qubits : List Qubit
  ancilla_qubits : List Qubit
  qubit_map : List Qubit
deriving Repr

/-- `StabilizerCircuits.__init__(data_qubits, ancilla_qubits)`:
`qubit_map = {q: (q.row, q.col) for q in data_qubits + ancilla_qubits}`. -/
def StabilizerCircuits.init (data ancilla : List Qubit) : StabilizerCircuits :=
  { data_qubits := data
    ancilla_qubits := ancilla
    qubit_map := buildQubitMap (data ++ ancilla) }

/-- The offset components scanned by `_get_neighbors`:
`for dr in [-0.5, 0.5]: for dc in [-0.5, 0.5]`. -/
def offsets : List ℚ := [-(1/2), 1/2]

/-- The successful scan of `_get_neighbors`: for each (dr, dc) in
enumeration order, every map entry whose position equals
`(r + dr, c + dc)`, in map iteration (= insertion) order. -/
def resolvedNeighbors (s : StabilizerCircuits) (q : Qubit) : List Qubit :=
  offsets.flatMap fun dr => offsets.flatMap fun dc =>
    s.qubit_map.filter fun x => decide ((x.row, x.col) = (q.row + dr, q.col + dc))

/-- `_get_neighbors(ancilla_qubit)`: `r, c = self.qubit_map[ancilla_qubit]`
raises KeyError when the qubit is not a key; otherwise the scan above.
(The stored value of a present key is the key's own coordinates.) -/
def get_neighbors (s : StabilizerCircuits) (ancilla_qubit : Qubit) :
    Except Unit (List Qubit) :=
  if ancilla_qubit ∈ s.qubit_map then .ok (resolvedNeighbors s ancilla_qubit)
  else .error ()

/-- Phase 2 of the cycle: `for ancilla in self.ancilla_qubits:` append
`cirq.CNOT(ancilla, data) for data in self._get_neighbors(ancilla)`. -/
def cnotFromAncilla (s : StabilizerCircuits) : List Qubit → Except Unit Circuit
  | [] => .ok []
  | ancilla :: rest =>
    match get_neighbors s ancilla with
    | .error e => .error e
    | .ok neighbors =>
      match cnotFromAncilla s rest with
      | .error e => .error e
      | .ok tail => .ok ((neighbors.map fun data => Op.cnot ancilla data) ++ tail)

/-- Phase 4 of the cycle: `for ancilla in self.ancilla_qubits:` append
`cirq.CNOT(data, ancilla) for data in self._get_neighbors(ancilla)`. -/
def cnotToAncilla (s : StabilizerCircuits) : List Qubit → Except Unit Circuit
  | [] => .ok []
  | ancilla :: rest =>
    match get_neighbors s ancilla with
    | .error e => .error e
    | .ok neighbors =>
      match cnotToAncilla s rest with
      | .error e => .error e
      | .ok tail => .ok ((neighbors.map fun data => Op.cnot data ancilla) ++ tail)

/-- `create_stabilizer_cycle()`: H on every ancilla, CNOTs ancilla→neighbors,
H on every ancilla again, CNOTs neighbors→ancilla, then one measurement of
all ancillas keyed "syndrome".  A KeyError from `_get_neighbors`
propagates unchanged. -/
def create_stabilizer_cycle (s : StabilizerCircuits) : Except Unit Circuit :=
  match cnotFromAncilla s s.ancilla_qubits, cnotToAncilla s s.ancilla_qubits with
  | .ok xPhase, .ok zPhase =>
    .ok ((s.ancilla_qubits.map Op.h) ++ xPhase ++ (s.ancilla_qubits.map Op.h)
      ++ zPhase ++ [Op.measure s.ancilla_qubits "syndrome"])
  | .error e, _ => .error e
  | _, .error e => .error e

/-- State built by `SurfaceCodeEncoder.__init__`. -/
structure SurfaceCodeEncoder where
  data_qubits : List Qubit
  ancilla_qubits : List Qubit
  all_qubits : List Qubit
deriving Repr

/-- `SurfaceCodeEncoder.__init__(data_qubits, ancilla_qubits)`. -/
def SurfaceCodeEncoder.init (data ancilla : List Qubit) : SurfaceCodeEncoder :=
  { data_qubits := data
    ancilla_qubits := ancilla
    all_qubits := data ++ ancilla }

/-- `create_logical_zero_circuit()`: `cirq.reset(q) for q in self.data_qubits`. -/
def create_logical_zero_circuit (e : SurfaceCodeEncoder) : Circuit :=
  e.data_qubits.map Op.reset

/-- The four candidate neighbor positions of a qubit, in the scan's
enumeration order. -/
def offsetPositions (q : Qubit) : List (ℚ × ℚ) :=
  offsets.flatMap fun dr => offsets.flatMap fun dc => [(q.row + dr, q.col + dc)]

/-- The at-most-one qubit of `qs` sitting exactly at position `p`
(qubits are compared by coordinates, so it can only be `⟨p.1, p.2⟩`). -/
def matchList (qs : List Qubit) (p : ℚ × ℚ) : List Qubit :=
  if (⟨p.1, p.2⟩ : Qubit) ∈ qs then [⟨p.1, p.2⟩] else []

/-- Neighbor list as the spec describes it (§4.1): enumerate the four
offsets in order and collect, at each, the matching qubit of the original
qubit set if one exists. -/
def specNeighborOrder (qs : List Qubit) (q : Qubit) : List Qubit :=
  (offsetPositions q).flatMap (matchList qs)

/-- How many of the four candidate positions are occupied by a qubit of `qs`. -/
def occupiedCount (qs : List Qubit) (q : Qubit) : Nat :=
  (offsetPositions q).countP fun p => decide ((⟨p.1, p.2⟩ : Qubit) ∈ qs)

/-- The example patch layout of both scripts' `__main__` blocks. -/
def exampleData : List Qubit := [⟨0, 0⟩, ⟨0, 1⟩, ⟨1, 0⟩, ⟨1, 1⟩]

/-- The example ancilla layout of both scripts' `__main__` blocks. -/
def exampleAncillas : List Qubit := [⟨1/2, 1/2⟩, ⟨1/2, 3/2⟩, ⟨3/2, 1/2⟩]

lemma mem_foldl_dictInsert (l acc : List Qubit) (q : Qubit) :
    q ∈ l.foldl dictInsert acc ↔ q ∈ acc ∨ q ∈ l := by
  induction l generalizing acc with
  | nil => simp
  | cons x xs ih =>
    simp only [List.foldl_cons, ih, dictInsert]
    by_cases hx : x ∈ acc
    · rw [if_pos hx]
      constructor
      · rintro (h | h)
        · exact Or.inl h
        · exact Or.inr (List.mem_cons_of_mem _ h)
      · rintro (h | h)
        · exact Or.inl h
        · rcases List.mem_cons.mp h with rfl | h
          · exact Or.inl hx
          · exact Or.inr h
    · rw [if_neg hx]
      simp only [List.mem_append, List.mem_singleton, List.mem_cons]
      tauto

lemma mem_buildQubitMap (l : List Qubit) (q : Qubit) :
    q ∈ buildQubitMap l ↔ q ∈ l := by
  simp [buildQubitMap, mem_foldl_dictInsert]

lemma nodup_foldl_dictInsert (l : List Qubit) (acc : List Qubit) (h : acc.Nodup) :
    (l.foldl dictInsert acc).Nodup := by
  induction l generalizing acc with
  | nil => simpa
  | cons x xs ih =>
    simp only [List.foldl_cons, dictInsert]
    by_cases hx : x ∈ acc
    · rw [if_pos hx]; exact ih _ h
    · rw [if_neg hx]
      refine ih _ ?_
      simp [List.nodup_append, h, hx]

lemma nodup_buildQubitMap (l : List Qubit) : (buildQubitMap l).Nodup :=
  nodup_foldl_dictInsert l [] List.nodup_nil

lemma coords_eq_iff (x : Qubit) (p : ℚ × ℚ) :
    (x.row, x.col) = p ↔ x = ⟨p.1, p.2⟩ := by
  cases x with
  | mk r c =>
    cases p with
    | mk a b => simp [Prod.mk.injEq, Qubit.mk.injEq]

lemma filter_coords_eq (m : List Qubit) (hm : m.Nodup) (p : ℚ × ℚ) :
    (m.filter fun x => decide ((x.row, x.col) = p)) =
      if (⟨p.1, p.2⟩ : Qubit) ∈ m then [⟨p.1, p.2⟩] else [] := by
  induction m with
  | nil => simp
  | cons x xs ih =>
    rcases List.nodup_cons.mp hm with ⟨hx, hxs⟩
    by_cases hxp : x = (⟨p.1, p.2⟩ : Qubit)
    · subst hxp
      rw [List.filter_cons_of_pos (by simp [coords_eq_iff]), ih hxs]
      rw [if_neg hx, if_pos (List.mem_cons_self _ _)]
    · rw [List.filter_cons_of_neg (by simp [coords_eq_iff, hxp]), ih hxs]
      by_cases hmem : (⟨p.1, p.2⟩ : Qubit) ∈ xs
      · rw [if_pos hmem, if_pos (List.mem_cons_of_mem _ hmem)]
      · rw [if_neg hmem, if_neg (by simp [List.mem_cons, hmem, Ne.symm, hxp])]

lemma resolvedNeighbors_eq_matches (s : StabilizerCircuits) (hs : s.qubit_map.Nodup)
    (q : Qubit) :
    resolvedNeighbors s q = (offsetPositions q).flatMap (matchList s.qubit_map) := by
  simp only [resolvedNeighbors, offsetPositions, offsets, matchList,
    List.flatMap_cons, List.flatMap_nil, List.append_nil, List.singleton_append,
    List.cons_append, List.nil_append, List.append_assoc, filter_coords_eq _ hs]

lemma matchList_congr (qs qs' : List Qubit) (h : ∀ x, x ∈ qs ↔ x ∈ qs')
    (p : ℚ × ℚ) : matchList qs p = matchList qs' p := by
  simp only [matchList, h]

lemma length_flatMap_matchList (qs : List Qubit) (ps : List (ℚ × ℚ)) :
    (ps.flatMap (matchList qs)).length =
      ps.countP fun p => decide ((⟨p.1, p.2⟩ : Qubit) ∈ qs) := by
  induction ps with
  | nil => rfl
  | cons p ps ih =>
    simp only [List.flatMap_cons, List.length_append, ih, List.countP_cons, matchList]
    by_cases h : (⟨p.1, p.2⟩ : Qubit) ∈ qs <;> simp [h, Nat.add_comm]

lemma get_neighbors_ok_of_mem (s : StabilizerCircuits) (q : Qubit)
    (h : q ∈ s.qubit_map) :
    get_neighbors s q = .ok (resolvedNeighbors s q) := by
  simp [get_neighbors, h]

lemma cnotFromAncilla_ok (s : StabilizerCircuits) (l : List Qubit)
    (h : ∀ q ∈ l, q ∈ s.qubit_map) :
    cnotFromAncilla s l =
      .ok (l.flatMap fun anc =>
        (resolvedNeighbors s anc).map fun data => Op.cnot anc data) := by
  induction l with
  | nil => rfl
  | cons x xs ih =>
    have h1 := get_neighbors_ok_of_mem s x (h x (List.mem_cons_self _ _))
    have h2 := ih fun q hq => h q (List.mem_cons_of_mem _ hq)
    simp [cnotFromAncilla, h1, h2]

lemma cnotToAncilla_ok (s : StabilizerCircuits) (l : List Qubit)
    (h : ∀ q ∈ l, q ∈ s.qubit_map) :
    cnotToAncilla s l =
      .ok (l.flatMap fun anc =>
        (resolvedNeighbors s anc).map fun data => Op.cnot data anc) := by
  induction l with
  | nil => rfl
  | cons x xs ih =>
    have h1 := get_neighbors_ok_of_mem s x (h x (List.mem_cons_self _ _))
    have h2 := ih fun q hq => h q (List.mem_cons_of_mem _ hq)
    simp [cnotToAncilla, h1, h2]

lemma ancilla_mem_qubit_map (data ancilla : List Qubit) (q : Qubit)
    (h : q ∈ ancilla) :
    q ∈ (StabilizerCircuits.init data ancilla).qubit_map := by
  simp [StabilizerCircuits.init, mem_buildQubitMap, h]

lemma create_stabilizer_cycle_eq (data ancilla : List Qubit) :
    create_stabilizer_cycle (StabilizerCircuits.init data ancilla) =
      .ok ((ancilla.map Op.h)
        ++ (ancilla.flatMap fun anc =>
          (resolvedNeighbors (StabilizerCircuits.init data ancilla) anc).map
            fun d => Op.cnot anc d)
        ++ (ancilla.map Op.h)
        ++ (ancilla.flatMap fun anc =>
          (resolvedNeighbors (StabilizerCircuits.init data ancilla) anc).map
            fun d => Op.cnot d anc)
        ++ [Op.measure ancilla "syndrome"]) := by
  have hmem : ∀ q ∈ (StabilizerCircuits.init data ancilla).ancilla_qubits,
      q ∈ (StabilizerCircuits.init data ancilla).qubit_map := fun q hq =>
    ancilla_mem_qubit_map data ancilla q hq
  rw [create_stabilizer_cycle, cnotFromAncilla_ok _ _ hmem, cnotToAncilla_ok _ _ hmem]
  simp [StabilizerCircuits.init, List.append_assoc]

lemma length_flatMap_sum (l : List Qubit) (f : Qubit → Circuit) :
    (l.flatMap f).length = (l.map fun x => (f x).length).sum := by
  induction l with
  | nil => rfl
  | cons x xs ih => simp [ih]

end SurfaceCode

namespace SurfaceCode

/-- C1: on any layout, `create_stabilizer_cycle` succeeds and its circuit is,
in this exact phase order: one Hadamard per ancilla in construction order;
then for each ancilla in order a CNOT from the ancilla to each resolved
neighbor in resolver order; then one Hadamard per ancilla again; then for
each ancilla in order a CNOT from each resolved neighbor to the ancilla;
then exactly one measurement of all ancillas labelled "syndrome" — so
A + S + A + S + 1 operations in total and no others, where A is the number
of ancillas and S the sum of neighbor counts. -/
theorem stabilizer_cycle_phase_order (data ancilla : List Qubit) :
    ∃ c, create_stabilizer_cycle (StabilizerCircuits.init data ancilla) = .ok c ∧
      c = (ancilla.map Op.h)
        ++ (ancilla.flatMap fun anc =>
          (resolvedNeighbors (StabilizerCircuits.init data ancilla) anc).map
            fun d => Op.cnot anc d)
        ++ (ancilla.map Op.h)
        ++ (ancilla.flatMap fun anc =>
          (resolvedNeighbors (StabilizerCircuits.init data ancilla) anc).map
            fun d => Op.cnot d anc)
        ++ [Op.measure ancilla "syndrome"] ∧
      c.length = ancilla.length
        + (ancilla.map fun anc =>
            (resolvedNeighbors (StabilizerCircuits.init data ancilla) anc).length).sum
        + ancilla.length
        + (ancilla.map fun anc =>
            (resolvedNeighbors (StabilizerCircuits.init data ancilla) anc).length).sum
        + 1 := by
  refine ⟨_, create_stabilizer_cycle_eq data ancilla, rfl, ?_⟩
  simp only [List.length_append, List.length_map, List.length_singleton,
    length_flatMap_sum]

/-- C2: on any layout, `create_logical_zero_circuit` is exactly one reset per
data qubit, in the data qubits' given order, and nothing else. -/
theorem logical_zero_circuit_resets (data ancilla : List Qubit) :
    create_logical_zero_circuit (SurfaceCodeEncoder.init data ancilla) =
      data.map Op.reset ∧
    (create_logical_zero_circuit (SurfaceCodeEncoder.init data ancilla)).length =
      data.length :=
  ⟨rfl, by simp [create_logical_zero_circuit, SurfaceCodeEncoder.init]⟩

/-- C3 counterexample: with no data qubits and ancillas at (0,0) and
(0.5,0.5), the resolver applied to the ancilla at (0,0) returns the other
ancilla — a returned neighbor that is not a data qubit, refuting the claim
that every returned neighbor is a data qubit. -/
theorem neighbor_not_data_qubit_cex :
    get_neighbors (StabilizerCircuits.init [] [⟨0, 0⟩, ⟨1/2, 1/2⟩]) ⟨0, 0⟩ =
      .ok [⟨1/2, 1/2⟩] ∧
    (⟨1/2, 1/2⟩ : Qubit) ∉
      (StabilizerCircuits.init [] [⟨0, 0⟩, ⟨1/2, 1/2⟩]).data_qubits := by
  constructor
  · norm_num [get_neighbors, resolvedNeighbors, offsets, StabilizerCircuits.init,
      buildQubitMap, dictInsert, List.filter, Qubit.mk.injEq, Prod.mk.injEq]
  · simp [StabilizerCircuits.init]

/-- C3 (amended): for every ancilla present in the coordinate mapping, the
resolver succeeds and returns exactly the qubits of the layout (data or
ancilla) whose coordinates equal (ancilla.row + dr, ancilla.col + dc) for
some (dr, dc) in {-0.5, 0.5} x {-0.5, 0.5}: membership in the result is
equivalent to being a layout qubit at such a coordinate. -/
theorem neighbor_membership_characterization (data ancilla : List Qubit)
    (q n : Qubit)
    (h : q ∈ (StabilizerCircuits.init data ancilla).qubit_map) :
    ∃ ns, get_neighbors (StabilizerCircuits.init data ancilla) q = .ok ns ∧
      (n ∈ ns ↔ n ∈ data ++ ancilla ∧
        ∃ dr ∈ offsets, ∃ dc ∈ offsets,
          n.row = q.row + dr ∧ n.col = q.col + dc) := by
  refine ⟨_, get_neighbors_ok_of_mem _ _ h, ?_⟩
  simp only [resolvedNeighbors, List.mem_flatMap, List.mem_filter,
    decide_eq_true_eq, Prod.mk.injEq, StabilizerCircuits.init,
    mem_buildQubitMap]
  constructor
  · rintro ⟨dr, hdr, dc, hdc, hmem, hrow, hcol⟩
    exact ⟨hmem, dr, hdr, dc, hdc, hrow, hcol⟩
  · rintro ⟨hmem, dr, hdr, dc, hdc, hrow, hcol⟩
    exact ⟨dr, hdr, dc, hdc, hmem, hrow, hcol⟩

/-- C3 witness: concrete instance of the amended characterization on the
layout with one data qubit at (0,0) and one ancilla at (0.5,0.5). -/
theorem neighbor_membership_characterization_witness :
    (⟨1/2, 1/2⟩ : Qubit) ∈
      (StabilizerCircuits.init [⟨0, 0⟩] [⟨1/2, 1/2⟩]).qubit_map ∧
    ∃ ns, get_neighbors (StabilizerCircuits.init [⟨0, 0⟩] [⟨1/2, 1/2⟩])
        ⟨1/2, 1/2⟩ = .ok ns ∧
      ((⟨0, 0⟩ : Qubit) ∈ ns ↔ (⟨0, 0⟩ : Qubit) ∈ [⟨0, 0⟩] ++ [⟨1/2, 1/2⟩] ∧
        ∃ dr ∈ offsets, ∃ dc ∈ offsets,
          (⟨0, 0⟩ : Qubit).row = (⟨1/2, 1/2⟩ : Qubit).row + dr ∧
          (⟨0, 0⟩ : Qubit).col = (⟨1/2, 1/2⟩ : Qubit).col + dc) := by
  have hm : (⟨1/2, 1/2⟩ : Qubit) ∈
      (StabilizerCircuits.init [⟨0, 0⟩] [⟨1/2, 1/2⟩]).qubit_map :=
    ancilla_mem_qubit_map _ _ _ (List.mem_singleton_self _)
  exact ⟨hm, neighbor_membership_characterization [⟨0, 0⟩] [⟨1/2, 1/2⟩]
    ⟨1/2, 1/2⟩ ⟨0, 0⟩ hm⟩

/-- C4: for every ancilla present in the coordinate mapping the resolver
succeeds (never raises); its result has as many entries as there are
occupied candidate positions; when all four diagonal offset positions are
occupied by data qubits (interior) it returns exactly 4 neighbors, and when
fewer of the candidate positions are occupied (boundary) it returns fewer
than 4 — possibly zero. -/
theorem neighbor_count_interior_boundary (data ancilla : List Qubit) (q : Qubit)
    (h : q ∈ (StabilizerCircuits.init data ancilla).qubit_map) :
    ∃ ns, get_neighbors (StabilizerCircuits.init data ancilla) q = .ok ns ∧
      ns.length = occupiedCount (data ++ ancilla) q ∧
      ((∀ p ∈ offsetPositions q, (⟨p.1, p.2⟩ : Qubit) ∈ data) →
        ns.length = 4) ∧
      (occupiedCount (data ++ ancilla) q < 4 → ns.length < 4) := by
  have hnodup : (StabilizerCircuits.init data ancilla).qubit_map.Nodup :=
    nodup_buildQubitMap _
  have hlen : (resolvedNeighbors (StabilizerCircuits.init data ancilla) q).length =
      occupiedCount (data ++ ancilla) q := by
    rw [resolvedNeighbors_eq_matches _ hnodup, length_flatMap_matchList,
      occupiedCount]
    refine List.countP_congr fun p _ => ?_
    simp [StabilizerCircuits.init, mem_buildQubitMap]
  refine ⟨_, get_neighbors_ok_of_mem _ _ h, hlen, fun hall => ?_, fun hlt => ?_⟩
  · rw [hlen, occupiedCount]
    have : ∀ p ∈ offsetPositions q,
        (fun p => decide ((⟨p.1, p.2⟩ : Qubit) ∈ data ++ ancilla)) p = true := by
      intro p hp
      simp only [decide_eq_true_eq, List.mem_append]
      exact Or.inl (hall p hp)
    rw [List.countP_eq_length.mpr this]
    rfl
  · rw [hlen]; exact hlt

/-- C4 witness: the boundary ancilla at (0.5,0.5) of the one-data-qubit
layout has one occupied candidate position, hence fewer than 4 neighbors. -/
theorem neighbor_count_interior_boundary_witness :
    (⟨1/2, 1/2⟩ : Qubit) ∈
      (StabilizerCircuits.init [⟨0, 0⟩] [⟨1/2, 1/2⟩]).qubit_map ∧
    ∃ ns, get_neighbors (StabilizerCircuits.init [⟨0, 0⟩] [⟨1/2, 1/2⟩])
        ⟨1/2, 1/2⟩ = .ok ns ∧
      ns.length = occupiedCount ([⟨0, 0⟩] ++ [⟨1/2, 1/2⟩]) ⟨1/2, 1/2⟩ ∧
      ((∀ p ∈ offsetPositions ⟨1/2, 1/2⟩, (⟨p.1, p.2⟩ : Qubit) ∈ [⟨0, 0⟩]) →
        ns.length = 4) ∧
      (occupiedCount ([⟨0, 0⟩] ++ [⟨1/2, 1/2⟩]) ⟨1/2, 1/2⟩ < 4 →
        ns.length < 4) := by
  have hm : (⟨1/2, 1/2⟩ : Qubit) ∈
      (StabilizerCircuits.init [⟨0, 0⟩] [⟨1/2, 1/2⟩]).qubit_map :=
    ancilla_mem_qubit_map _ _ _ (List.mem_singleton_self _)
  exact ⟨hm, neighbor_count_interior_boundary [⟨0, 0⟩] [⟨1/2, 1/2⟩] ⟨1/2, 1/2⟩ hm⟩

/-- C5: for every ancilla present in the coordinate mapping, the resolver
returns its matches in offset enumeration order (-0.5,-0.5), (-0.5,+0.5),
(+0.5,-0.5), (+0.5,+0.5), with the match at each offset taken from the
original qubit set given at construction (data first, then ancillas) —
the spec-side ordering `specNeighborOrder`. -/
theorem neighbor_order_deterministic (data ancilla : List Qubit) (q : Qubit)
    (h : q ∈ (StabilizerCircuits.init data ancilla).qubit_map) :
    get_neighbors (StabilizerCircuits.init data ancilla) q =
      .ok (specNeighborOrder (data ++ ancilla) q) := by
  rw [get_neighbors_ok_of_mem _ _ h,
    resolvedNeighbors_eq_matches _ (nodup_buildQubitMap _) q]
  have hml : matchList (StabilizerCircuits.init data ancilla).qubit_map =
      matchList (data ++ ancilla) := by
    funext p
    exact matchList_congr _ _ (fun x => mem_buildQubitMap _ x) p
  rw [specNeighborOrder, hml]

/-- C5 witness: concrete instance of the ordering theorem on the layout with
one data qubit at (0,0) and one ancilla at (0.5,0.5). -/
theorem neighbor_order_deterministic_witness :
    (⟨1/2, 1/2⟩ : Qubit) ∈
      (StabilizerCircuits.init [⟨0, 0⟩] [⟨1/2, 1/2⟩]).qubit_map ∧
    get_neighbors (StabilizerCircuits.init [⟨0, 0⟩] [⟨1/2, 1/2⟩]) ⟨1/2, 1/2⟩ =
      .ok (specNeighborOrder ([⟨0, 0⟩] ++ [⟨1/2, 1/2⟩]) ⟨1/2, 1/2⟩) := by
  have hm : (⟨1/2, 1/2⟩ : Qubit) ∈
      (StabilizerCircuits.init [⟨0, 0⟩] [⟨1/2, 1/2⟩]).qubit_map :=
    ancilla_mem_qubit_map _ _ _ (List.mem_singleton_self _)
  exact ⟨hm, neighbor_order_deterministic [⟨0, 0⟩] [⟨1/2, 1/2⟩] ⟨1/2, 1/2⟩ hm⟩

/-- C6: the resolver fails with a lookup error exactly when the queried
qubit was in neither the data-qubit nor the ancilla-qubit sequence passed
to the constructor; on a registered qubit no lookup error is raised. -/
theorem lookup_error_iff_absent (data ancilla : List Qubit) (q : Qubit) :
    get_neighbors (StabilizerCircuits.init data ancilla) q = .error () ↔
      q ∉ data ++ ancilla := by
  have hmem : q ∈ (StabilizerCircuits.init data ancilla).qubit_map ↔
      q ∈ data ++ ancilla := by
    simp [StabilizerCircuits.init, mem_buildQubitMap]
  rw [show (q ∉ data ++ ancilla) ↔
      ¬q ∈ (StabilizerCircuits.init data ancilla).qubit_map from
    (not_congr hmem).symm]
  by_cases h : q ∈ (StabilizerCircuits.init data ancilla).qubit_map
  · simp [get_neighbors_ok_of_mem _ _ h, h]
  · simp [get_neighbors, h]

/-- C7 counterexample: a layout whose ancilla coordinate collides with a
data coordinate is not rejected: construction succeeds, silently collapsing
the two qubits to one mapping entry, and the collided coordinate can be
queried without failure. -/
theorem duplicate_coordinates_accepted_cex :
    (StabilizerCircuits.init [⟨0, 0⟩] [⟨0, 0⟩]).qubit_map = [⟨0, 0⟩] ∧
    (∃ ns, get_neighbors (StabilizerCircuits.init [⟨0, 0⟩] [⟨0, 0⟩]) ⟨0, 0⟩ =
      .ok ns) ∧
    (SurfaceCodeEncoder.init [⟨0, 0⟩] [⟨0, 0⟩]).all_qubits =
      [⟨0, 0⟩, ⟨0, 0⟩] := by
  refine ⟨by norm_num [StabilizerCircuits.init, buildQubitMap, dictInsert], ?_, rfl⟩
  exact ⟨_, get_neighbors_ok_of_mem _ _
    (ancilla_mem_qubit_map _ _ _ (List.mem_singleton_self _))⟩

/-- C7 (amended): construction never fails; a duplicate-coordinate layout is
silently accepted, with colliding qubits collapsed to a single entry of the
coordinate mapping — the mapping is duplicate-free and contains exactly the
qubits of the combined data+ancilla sequence. -/
theorem construction_total_collapses_duplicates (data ancilla : List Qubit) :
    (StabilizerCircuits.init data ancilla).qubit_map.Nodup ∧
    ∀ q, q ∈ (StabilizerCircuits.init data ancilla).qubit_map ↔
      q ∈ data ++ ancilla :=
  ⟨nodup_buildQubitMap _, fun q => mem_buildQubitMap _ q⟩

/-- C8: both generators are deterministic functions of the layout: two calls
on states built from the same layout produce identical operation sequences;
there is no randomness and no mutable cross-call state in the embedding. -/
theorem generators_deterministic (data ancilla : List Qubit)
    (s1 s2 : StabilizerCircuits) (e1 e2 : SurfaceCodeEncoder)
    (hs1 : s1 = StabilizerCircuits.init data ancilla)
    (hs2 : s2 = StabilizerCircuits.init data ancilla)
    (he1 : e1 = SurfaceCodeEncoder.init data ancilla)
    (he2 : e2 = SurfaceCodeEncoder.init data ancilla) :
    create_stabilizer_cycle s1 = create_stabilizer_cycle s2 ∧
    create_logical_zero_circuit e1 = create_logical_zero_circuit e2 := by
  subst hs1 hs2 he1 he2
  exact ⟨rfl, rfl⟩

/-- C8 witness: determinism instantiated on the example patch layout. -/
theorem generators_deterministic_witness :
    create_stabilizer_cycle (StabilizerCircuits.init exampleData exampleAncillas) =
      create_stabilizer_cycle (StabilizerCircuits.init exampleData exampleAncillas) ∧
    create_logical_zero_circuit (SurfaceCodeEncoder.init exampleData exampleAncillas) =
      create_logical_zero_circuit (SurfaceCodeEncoder.init exampleData exampleAncillas) :=
  generators_deterministic exampleData exampleAncillas _ _ _ _ rfl rfl rfl rfl

/-- C9: on the example patch — data qubits at (0,0),(0,1),(1,0),(1,1),
ancillas at (0.5,0.5),(0.5,1.5),(1.5,0.5) — the resolver returns exactly
the four data qubits (0,0),(0,1),(1,0),(1,1) for the interior ancilla at
(0.5,0.5) and exactly the two data qubits (0,1),(1,1) for the boundary
ancilla at (0.5,1.5). -/
theorem example_patch_neighbors :
    get_neighbors (StabilizerCircuits.init exampleData exampleAncillas)
      ⟨1/2, 1/2⟩ = .ok [⟨0, 0⟩, ⟨0, 1⟩, ⟨1, 0⟩, ⟨1, 1⟩] ∧
    get_neighbors (StabilizerCircuits.init exampleData exampleAncillas)
      ⟨1/2, 3/2⟩ = .ok [⟨0, 1⟩, ⟨1, 1⟩] := by
  constructor <;>
  · norm_num [get_neighbors, resolvedNeighbors, offsets, StabilizerCircuits.init,
      buildQubitMap, dictInsert, exampleData, exampleAncillas, List.filter,
      Qubit.mk.injEq, Prod.mk.injEq]

/-- C10: `create_stabilizer_cycle` can never hit the resolver's lookup
error: every qubit it queries comes from the ancilla sequence, each of which
the constructor inserted into the coordinate mapping, so the resolver
succeeds on all of them and the cycle always returns a circuit. -/
theorem cycle_never_hits_lookup_error (data ancilla : List Qubit) :
    (∀ q ∈ ancilla,
      get_neighbors (StabilizerCircuits.init data ancilla) q ≠ .error ()) ∧
    ∃ c, create_stabilizer_cycle (StabilizerCircuits.init data ancilla) =
      .ok c := by
  constructor
  · intro q hq
    rw [get_neighbors_ok_of_mem _ _ (ancilla_mem_qubit_map _ _ _ hq)]
    simp
  · exact ⟨_, create_stabilizer_cycle_eq data ancilla⟩

/-- C10 witness: on the example patch, the first ancilla resolves without a
lookup error and the cycle is built successfully. -/
theorem cycle_never_hits_lookup_error_witness :
    (⟨1/2, 1/2⟩ : Qubit) ∈ exampleAncillas ∧
    get_neighbors (StabilizerCircuits.init exampleData exampleAncillas)
      ⟨1/2, 1/2⟩ ≠ .error () ∧
    ∃ c, create_stabilizer_cycle
      (StabilizerCircuits.init exampleData exampleAncillas) = .ok c := by
  have hm : (⟨1/2, 1/2⟩ : Qubit) ∈ exampleAncillas := by
    simp [exampleAncillas]
  obtain ⟨h1, h2⟩ := cycle_never_hits_lookup_error exampleData exampleAncillas
  exact ⟨hm, h1 _ hm, h2⟩

end SurfaceCode
